import Mathlib

/-!
Verification development for the ZLCoro coroutine runtime.

Shallow embedding of the core components (Task, Generator, ThreadPool,
EventLoop timer store, EpollPoller registration and poll collection,
AsyncSocket write loop) as executable Lean definitions, each translated
from the corresponding C++ source, together with theorems settling the
specification claims about them.
-/

namespace ZLCoro

/-! ## EventLoop timer store (include/zlcoro/io/event_loop.hpp)

The C++ stores timers in `std::map<TimerId, Timer> timers_`, i.e. an
ordered map keyed by the timer id, carrying the deadline and the callback
as the mapped value.  We model the map as an association list whose keys
are kept strictly sorted (the `std::map` representation invariant), and
callbacks as opaque numeric labels.  Time is in milliseconds. -/

structure Timer where
  expire_time : Nat
  callback : Nat
  deriving Repr, DecidableEq

/-- Insert-or-assign into an association list sorted strictly by key,
the representation of `std::map` writes such as `timers_[id] = ...`. -/
def mapAssign {β : Type} (k : Nat) (v : β) : List (Nat × β) → List (Nat × β)
  | [] => [(k, v)]
  | (k', v') :: rest =>
    if k < k' then (k, v) :: (k', v') :: rest
    else if k = k' then (k, v) :: rest
    else (k', v') :: mapAssign k v rest

/-- Erase a key from the association list (`std::map::erase`). -/
def mapErase {β : Type} (k : Nat) : List (Nat × β) → List (Nat × β)
  | [] => []
  | (k', v') :: rest => if k = k' then rest else (k', v') :: mapErase k rest

structure EventLoopTimers where
  timers : List (Nat × Timer)
  next_timer_id : Nat
  deriving Repr, DecidableEq

def EventLoopTimers.init : EventLoopTimers := ⟨[], 0⟩

/-- `EventLoop::add_timer`: expire time is now + delay, the fresh id is
`next_timer_id_++`, and the timer is stored under that id. -/
def add_timer (s : EventLoopTimers) (now delay_ms cb : Nat) :
    EventLoopTimers × Nat :=
  let expire := now + delay_ms
  let id := s.next_timer_id
  (⟨mapAssign id ⟨expire, cb⟩ s.timers, id + 1⟩, id)

/-- `EventLoop::cancel_timer`: erase by id. -/
def cancel_timer (s : EventLoopTimers) (id : Nat) : EventLoopTimers :=
  ⟨mapErase id s.timers, s.next_timer_id⟩

/-- The first element of the timer map, `timers_.begin()`. -/
def timersBegin (s : EventLoopTimers) : Option (Nat × Timer) :=
  s.timers.head?

/-- `EventLoop::process_timers`: walk the map in key (id) order, moving
every timer with `expire_time <= now` out and erasing it; fire the
collected callbacks in that order; then compute the next poll timeout
from `timers_.begin()` of what remains (100 ms when empty).
Returns (new state, fired callback labels in firing order, timeout). -/
def process_timers (s : EventLoopTimers) (now : Nat) :
    EventLoopTimers × List Nat × Int :=
  let expired := s.timers.filter (fun p => p.2.expire_time ≤ now)
  let remaining := s.timers.filter (fun p => ¬ p.2.expire_time ≤ now)
  let fired := expired.map (fun p => p.2.callback)
  let timeout : Int :=
    match remaining with
    | [] => 100
    | (_, t) :: _ => max 0 ((t.expire_time : Int) - (now : Int))
  (⟨remaining, s.next_timer_id⟩, fired, timeout)

/-- State after `add_timer(1000, A)` (label 0) then `add_timer(100, B)`
(label 1), both registered at time 0. -/
def twoTimerState : EventLoopTimers :=
  ((add_timer ((add_timer .init 0 1000 0).1) 0 100 1).1)

/-- C1: the claim says the timer store is ordered by deadline so that
`begin()` is an earliest-deadline timer.  In the code the store is a
`std::map` keyed by timer id: after registering a 1000 ms timer (id 0)
and then a 100 ms timer (id 1), `begin()` is the id-0 timer with
deadline 1000, while the registered id-1 timer has the strictly earlier
deadline 100.  This evaluates the embedded code at that failing input. -/
theorem C1_timers_begin_is_smallest_id_not_earliest_deadline :
    twoTimerState.timers = [(0, ⟨1000, 0⟩), (1, ⟨100, 1⟩)] ∧
    timersBegin twoTimerState = some (0, ⟨1000, 0⟩) ∧
    (100 : Nat) < 1000 := by
  decide

/-- C4: the claim says that when both deadlines have passed, a single
`process_timers` pass fires the earlier-deadline callback first.  At
time 1000 both timers of `twoTimerState` are expired, yet the pass fires
label 0 (deadline 1000) before label 1 (deadline 100), because the map
iterates in id order, not deadline order. -/
theorem C4_single_pass_fires_in_id_order_not_deadline_order :
    (process_timers twoTimerState 1000).2.1 = [0, 1] ∧
    twoTimerState.timers = [(0, ⟨1000, 0⟩), (1, ⟨100, 1⟩)] ∧
    (100 : Nat) ≤ 1000 ∧ (1000 : Nat) ≤ 1000 := by
  decide

/-! ## Task, its promise and awaiter (include/zlcoro/core/task.hpp)

`TaskPromise<T>` holds a value slot (`value_` guarded by `has_value_`),
an `exception_` slot and the `continuation_` handle inherited from
`TaskPromiseBase`.  Coroutine handles are opaque identifiers of type `C`;
errors are opaque values of type `E`.  Operations that in C++ would
dereference a null handle, or read a value that was never stored, return
`none` — the marker for undefined behavior in the embedding. -/

structure TaskPromise (T E C : Type) where
  value? : Option T := none
  exception? : Option E := none
  continuation? : Option C := none

/-- `TaskPromise::return_value`: construct the value in the slot and set
`has_value_`. -/
def return_value {T E C : Type} (p : TaskPromise T E C) (v : T) :
    TaskPromise T E C :=
  { p with value? := some v }

/-- `TaskPromise::unhandled_exception`: store `std::current_exception()`
in the `exception_` slot (the function is `noexcept` and rethrows
nothing). -/
def unhandled_exception {T E C : Type} (p : TaskPromise T E C) (e : E) :
    TaskPromise T E C :=
  { p with exception? := some e }

/-- `TaskPromiseBase::set_continuation`. -/
def set_continuation {T E C : Type} (p : TaskPromise T E C) (c : C) :
    TaskPromise T E C :=
  { p with continuation? := some c }

/-- `TaskPromise::result`: rethrow the stored exception if there is one,
otherwise return the stored value (asserting that one was stored; the
assertion failing is `none`). -/
def promiseResult {T E C : Type} (p : TaskPromise T E C) :
    Option (Except E T) :=
  match p.exception? with
  | some e => some (.error e)
  | none => p.value?.map .ok

/-- Where control goes after an `await_suspend` that returns a handle:
either symmetric transfer into a coroutine, or `std::noop_coroutine()`. -/
inductive Transfer (C : Type) where
  | toCoro (h : C)
  | noop
  deriving Repr, DecidableEq

/-- A coroutine frame: its promise record plus the `done()` flag. -/
structure Frame (T E C : Type) where
  promise : TaskPromise T E C
  frameDone : Bool

/-- `TaskPromiseBase::FinalAwaiter::await_suspend`: return the stored
continuation when one is installed, `noop_coroutine` otherwise.  The
handle is returned, not resumed — a symmetric hand-off. -/
def finalAwaiterSuspend {T E C : Type} (p : TaskPromise T E C) :
    Transfer C :=
  match p.continuation? with
  | some c => .toCoro c
  | none => .noop

/-- `Task::Awaiter` carries `coro_`, the awaited Task's handle; `none`
models a null handle (moved-from Task). The `some` case pairs the handle
identity with the frame it refers to. -/
structure Awaiter (T E C : Type) where
  coro? : Option (C × Frame T E C)

/-- `Task::Awaiter::await_ready`: `!coro_ || coro_.done()`. -/
def await_ready {T E C : Type} (a : Awaiter T E C) : Bool :=
  match a.coro? with
  | none => true
  | some (_, f) => f.frameDone

/-- `Task::Awaiter::await_suspend`: install the awaiting coroutine as the
awaited frame's continuation and return `coro_` (transfer into the
awaited coroutine).  On a null `coro_` this dereferences a null handle:
`none`. -/
def await_suspend {T E C : Type} (a : Awaiter T E C) (awaiting : C) :
    Option (Awaiter T E C × Transfer C) :=
  match a.coro? with
  | none => none
  | some (h, f) =>
    some (⟨some (h, ⟨set_continuation f.promise awaiting, f.frameDone⟩)⟩,
          .toCoro h)

/-- `Task::Awaiter::await_resume`: `coro_.promise().result()`; on a null
`coro_` this dereferences a null handle: `none`. -/
def await_resume {T E C : Type} (a : Awaiter T E C) :
    Option (Except E T) :=
  match a.coro? with
  | none => none
  | some (_, f) => promiseResult f.promise

/-- Running a Task body to its return during one resumption: a value is
moved into the slot by `return_value`, an uncaught error is captured by
`unhandled_exception`.  The second component is the exception escaping
the resumption; `unhandled_exception` only stores, so nothing escapes on
either path. -/
def resume_run {T E C : Type} (f : Frame T E C) (body : Except E T) :
    Frame T E C × Option E :=
  match body with
  | .ok v => (⟨return_value f.promise v, true⟩, none)
  | .error e => (⟨unhandled_exception f.promise e, true⟩, none)

/-- `Task::sync_wait`: resume the frame until `done()`, then read
`result()`.  The very first `coro_.done()` already dereferences the
handle, so a null-frame Task is `none` (undefined behavior), with no
error value produced.  For a frame the body run is the resumption loop
of a Task with no cross-thread suspension. -/
def sync_wait {T E C : Type} (t : Option (Frame T E C))
    (body : Except E T) : Option (Except E T) :=
  match t with
  | none => none
  | some f =>
    if f.frameDone then promiseResult f.promise
    else promiseResult ((resume_run f body).1).promise

/-- `async_run`: the submitted runner drives the Task by `sync_wait` and
fulfils the `std::promise` with the value, or with the exception rethrown
by `sync_wait` and caught by the runner; `future.get()` then yields that
outcome.  `none` is an unfulfilled future (runner hit undefined
behavior). -/
def async_run_future_get {T E C : Type} (t : Option (Frame T E C))
    (body : Except E T) : Option (Except E T) :=
  sync_wait t body

/-- A freshly constructed frame: empty promise, initially suspended and
not done. -/
def freshFrame (T E C : Type) : Frame T E C :=
  ⟨{}, false⟩

/-- C2 counterexample: awaiting or sync-waiting a moved-from (null-frame)
`Task<int>` does not produce an error result.  `await_ready` is true, so
the await completes immediately, but `await_resume` dereferences the
null frame (`none`, the undefined-behavior marker) instead of returning
an error value, and `sync_wait` hits the same on its first `done()`
call. -/
theorem C2_null_frame_yields_no_error_result :
    await_ready (⟨none⟩ : Awaiter Nat Nat Nat) = true ∧
    await_resume (⟨none⟩ : Awaiter Nat Nat Nat) = none ∧
    (await_resume (⟨none⟩ : Awaiter Nat Nat Nat)).isSome = false ∧
    sync_wait (none : Option (Frame Nat Nat Nat)) (.ok 0) = none := by
  refine ⟨rfl, rfl, rfl, rfl⟩

/-- C2 amended: for every result type, awaiting a null-frame Task
completes without suspending (`await_ready` is true), but its result
access — like `sync_wait` on a null-frame Task — is an unguarded
dereference of the null frame (the `none` marker), not a returned error
value. -/
theorem C2_null_frame_await_is_immediate_unguarded_dereference
    (T E C : Type) (body : Except E T) :
    await_ready (⟨none⟩ : Awaiter T E C) = true ∧
    await_resume (⟨none⟩ : Awaiter T E C) = none ∧
    await_suspend (⟨none⟩ : Awaiter T E C) = (fun _ => none) ∧
    sync_wait (none : Option (Frame T E C)) body = none := by
  refine ⟨rfl, rfl, ?_, rfl⟩
  funext c
  rfl

/-- C3: the await protocol.  (1) `await_ready` is exactly the awaited
frame's `done()` flag, so a completed frame makes the await return
immediately; (2) `await_suspend` installs the awaiting coroutine as the
stored continuation and symmetrically transfers control to the awaited
handle; (3) at final suspension, control is handed directly to the stored
continuation when one is installed and to no coroutine otherwise;
(4) the resumption reads the result slot: a stored error is re-raised,
otherwise the stored value is produced as the await's value. -/
theorem C3_await_installs_continuation_and_transfers
    (T E C : Type) (h b c : C) (f : Frame T E C) (v : T) (e : E)
    (p : TaskPromise T E C) :
    await_ready (⟨some (h, f)⟩ : Awaiter T E C) = f.frameDone ∧
    await_suspend (⟨some (h, f)⟩ : Awaiter T E C) b =
      some (⟨some (h, ⟨{ f.promise with continuation? := some b },
                       f.frameDone⟩)⟩, .toCoro h) ∧
    finalAwaiterSuspend { p with continuation? := some c } =
      Transfer.toCoro c ∧
    finalAwaiterSuspend { p with continuation? := none } =
      (Transfer.noop : Transfer C) ∧
    await_resume (⟨some (h, ⟨{ value? := some v, exception? := none,
                               continuation? := p.continuation? },
                             true⟩)⟩ : Awaiter T E C) = some (.ok v) ∧
    await_resume (⟨some (h, ⟨{ f.promise with exception? := some e },
                             true⟩)⟩ : Awaiter T E C) =
      some (.error e) := by
  refine ⟨rfl, rfl, rfl, rfl, rfl, rfl⟩

/-- C6: an uncaught error `e` raised by the body is captured by
`unhandled_exception` into the promise's exception slot during the
resumption that ran the body, and nothing escapes that resumption; until
observed, the frame's stored result is the error; it is re-raised at
each observation point — awaiting the Task, `sync_wait`, and `get()` on
the future returned by `async_run` all produce `e`. -/
theorem C6_uncaught_error_is_captured_and_reraised_at_observation
    (T E C : Type) (e : E) (c₀ : C) :
    (resume_run (freshFrame T E C) (.error e)).2 = none ∧
    ((resume_run (freshFrame T E C) (.error e)).1).promise.exception? =
      some e ∧
    ((resume_run (freshFrame T E C) (.error e)).1).promise.value? =
      none ∧
    await_resume (⟨some (c₀, (resume_run (freshFrame T E C)
        (.error e)).1)⟩ : Awaiter T E C) = some (.error e) ∧
    sync_wait (some (freshFrame T E C)) (.error e) = some (.error e) ∧
    async_run_future_get (some (freshFrame T E C)) (.error e) =
      some (.error e) := by
  refine ⟨rfl, rfl, rfl, rfl, rfl, rfl⟩

/-! ## ThreadPool (include/zlcoro/scheduler/thread_pool.hpp)

State: the `stop_` flag and the FIFO `task_queue_` (a deque, pushed at
the back and popped at the front).  A closure is a label paired with the
outcome of running it: `ok` or an uncaught error. -/

structure Closure where
  label : Nat
  outcome : Except Nat Unit

structure PoolState where
  stop : Bool
  task_queue : List Closure

/-- `ThreadPool::submit`: under the lock, return without touching the
queue when `stop_` is set; otherwise push the task at the back. -/
def submit (s : PoolState) (c : Closure) : PoolState :=
  if s.stop then s else ⟨s.stop, s.task_queue ++ [c]⟩

/-- `ThreadPool::shutdown`: set the stop flag (the join of the workers is
the iteration of `worker_step` below until every worker exits). -/
def pool_shutdown (s : PoolState) : PoolState :=
  ⟨true, s.task_queue⟩

/-- What one worker loop iteration does after the condition-variable wait
`stop_ || !task_queue_.empty()` returns. -/
inductive WorkerStep where
  | exited
  | ran (c : Closure) (s : PoolState)

/-- One iteration of `ThreadPool::worker_thread`'s loop: if `stop_` is
set and the queue is empty, return (the thread exits); otherwise pop the
front task and run it.  (When the queue is empty and `stop_` is unset the
worker is still blocked in the wait, so no step is taken.) -/
def worker_step (s : PoolState) : Option WorkerStep :=
  if s.stop && s.task_queue.isEmpty then some .exited
  else
    match s.task_queue with
    | [] => none
    | c :: rest => some (.ran c ⟨s.stop, rest⟩)

/-- Whether the worker survives running one closure: the call is wrapped
in `try { (*task)(); } catch (...) { }`, so both a normal return and an
uncaught error leave the worker in its loop. -/
inductive WorkerFate where
  | continues
  | killed

def run_in_worker (c : Closure) : WorkerFate :=
  match c.outcome with
  | .ok _ => .continues
  | .error _ => .continues

/-- Iterate `worker_step` for at most `fuel` iterations, collecting the
closures the worker executed, and whether it exited. -/
def worker_run : Nat → PoolState → List Closure × Bool
  | 0, _ => ([], false)
  | fuel + 1, s =>
    match worker_step s with
    | some .exited => ([], true)
    | some (.ran c s') =>
      let (l, b) := worker_run fuel s'
      (c :: l, b)
    | none => ([], false)

/-- Whatever a worker executes was in the queue it started from. -/
theorem worker_run_executed_subset (fuel : Nat) :
    ∀ (s : PoolState) (c : Closure),
      c ∈ (worker_run fuel s).1 → c ∈ s.task_queue := by
  induction fuel with
  | zero => intro s c h; simp [worker_run] at h
  | succ n ih =>
    intro s c h
    obtain ⟨stop, q⟩ := s
    cases q with
    | nil => cases stop <;> simp [worker_run, worker_step] at h
    | cons d rest =>
      have hred : (worker_run (n + 1) ⟨stop, d :: rest⟩).1 =
          d :: (worker_run n ⟨stop, rest⟩).1 := by
        cases stop <;> simp [worker_run, worker_step]
      rw [hred] at h
      rcases List.mem_cons.mp h with h | h
      · exact List.mem_cons.mpr (Or.inl h)
      · exact List.mem_cons.mpr (Or.inr (ih ⟨stop, rest⟩ c h))

/-- C7: after shutdown has been requested, `submit` is a silent no-op:
the pool state (in particular the work queue) is unchanged, and a closure
that was not already queued is never executed by any worker afterwards,
so nothing tied to it is ever fulfilled.  Independently, a closure that
raises while a worker runs it is swallowed by the surrounding catch-all,
the worker continuing its loop rather than dying, so a raising closure at
the head of the queue yields a `ran` step (never an exit) with the rest
of the queue intact. -/
theorem C7_submit_after_shutdown_discarded_and_worker_swallows
    (s : PoolState) (c : Closure) (fuel : Nat) (e : Nat)
    (lbl : Nat) (rest : List Closure)
    (hstop : s.stop = true) (hnew : c ∉ s.task_queue) :
    submit s c = s ∧
    (submit s c).task_queue = s.task_queue ∧
    c ∉ (worker_run fuel (submit s c)).1 ∧
    run_in_worker ⟨lbl, .error e⟩ = .continues ∧
    worker_step ⟨s.stop, ⟨lbl, .error e⟩ :: rest⟩ =
      some (.ran ⟨lbl, .error e⟩ ⟨s.stop, rest⟩) := by
  have hsub : submit s c = s := by simp [submit, hstop]
  refine ⟨hsub, by rw [hsub], ?_, rfl, ?_⟩
  · intro hmem
    rw [hsub] at hmem
    exact hnew (worker_run_executed_subset fuel s c hmem)
  · simp [worker_step]

/-- Witness for C7 at a concrete pool state. -/
theorem C7_submit_after_shutdown_discarded_and_worker_swallows_witness :
    submit ⟨true, [⟨0, .ok ()⟩]⟩ ⟨1, .ok ()⟩ = ⟨true, [⟨0, .ok ()⟩]⟩ ∧
    run_in_worker ⟨2, .error 7⟩ = .continues := by
  have h := C7_submit_after_shutdown_discarded_and_worker_swallows
    ⟨true, [⟨0, .ok ()⟩]⟩ ⟨1, .ok ()⟩ 3 7 2 [] rfl (by simp)
  exact ⟨h.1, h.2.2.2.1⟩

/-- A worker exits only when the stop flag is set and the queue is empty. -/
theorem worker_step_exit_iff (s : PoolState) :
    worker_step s = some .exited ↔
      s.stop = true ∧ s.task_queue = [] := by
  obtain ⟨stop, q⟩ := s
  cases stop <;> cases q <;> simp [worker_step]

/-- After shutdown, a worker drains the whole queue in order and then
exits. -/
theorem worker_run_drains (q : List Closure) :
    ∀ fuel, q.length < fuel →
      worker_run fuel ⟨true, q⟩ = (q, true) := by
  induction q with
  | nil =>
    intro fuel hf
    match fuel, hf with
    | n + 1, _ => simp [worker_run, worker_step]
  | cons c rest ih =>
    intro fuel hf
    match fuel, hf with
    | n + 1, hf =>
      have hn : rest.length < n := by
        simpa [Nat.succ_lt_succ_iff] using hf
      have hstep : worker_step ⟨true, c :: rest⟩ =
          some (.ran c ⟨true, rest⟩) := by
        simp [worker_step]
      simp [worker_run, hstep, ih n hn]

/-- C10: `shutdown` never drops queued work.  A worker exits only when
the stop flag is set and the queue is empty, so once shutdown sets the
flag, every closure that was in the queue at that moment is executed (in
FIFO order) before the worker exits; `shutdown` joins the workers, i.e.
runs them to exit, before returning. -/
theorem C10_shutdown_drains_queue_before_exit
    (s : PoolState) (fuel : Nat) (hf : s.task_queue.length < fuel) :
    worker_run fuel (pool_shutdown s) = (s.task_queue, true) ∧
    (∀ s' : PoolState, worker_step s' = some .exited →
      s'.stop = true ∧ s'.task_queue = []) := by
  constructor
  · exact worker_run_drains s.task_queue fuel hf
  · intro s' h
    exact (worker_step_exit_iff s').1 h

/-- Witness for C10 at a concrete queue of two closures. -/
theorem C10_shutdown_drains_queue_before_exit_witness :
    worker_run 3 (pool_shutdown ⟨false, [⟨0, .ok ()⟩, ⟨1, .error 5⟩]⟩) =
      ([⟨0, .ok ()⟩, ⟨1, .error 5⟩], true) := by
  exact (C10_shutdown_drains_queue_before_exit
    ⟨false, [⟨0, .ok ()⟩, ⟨1, .error 5⟩]⟩ 3 (by decide)).1

/-! ## EpollPoller and EventLoop registration (event_loop.hpp)

`EpollPoller` keeps `std::map<int, EventHandler> handlers_`, one entry
per registered descriptor.  `EventLoop::register_read` /
`register_write` choose `EPOLL_CTL_MOD` when the fd is already known and
`EPOLL_CTL_ADD` otherwise; both store `handlers_[fd] = {coro, events}`.
`EpollPoller::poll` walks the events reported by one `epoll_wait` call
and pushes the registered continuation of each ready descriptor. -/

def EPOLLIN : Nat := 1
def EPOLLOUT : Nat := 4
def EPOLLERR : Nat := 8
def EPOLLHUP : Nat := 16
def EPOLLET : Nat := 2 ^ 31

structure EventHandler (C : Type) where
  coro : C
  events : Nat

/-- `std::map` lookup on the sorted association list. -/
def mapLookup {β : Type} (k : Nat) : List (Nat × β) → Option β
  | [] => none
  | (k', v) :: rest => if k = k' then some v else mapLookup k rest

structure Poller (C : Type) where
  handlers : List (Nat × EventHandler C)

/-- `EpollPoller::has`. -/
def pollerHas {C : Type} (p : Poller C) (fd : Nat) : Bool :=
  (mapLookup fd p.handlers).isSome

/-- `EpollPoller::add` (the `EPOLL_CTL_ADD` bookkeeping):
`handlers_[fd] = EventHandler{coro, events}`. -/
def pollerAdd {C : Type} (p : Poller C) (fd events : Nat) (coro : C) :
    Poller C :=
  ⟨mapAssign fd ⟨coro, events⟩ p.handlers⟩

/-- `EpollPoller::modify` (the `EPOLL_CTL_MOD` bookkeeping): the same
map write, replacing the stored handler. -/
def pollerModify {C : Type} (p : Poller C) (fd events : Nat) (coro : C) :
    Poller C :=
  ⟨mapAssign fd ⟨coro, events⟩ p.handlers⟩

/-- `EpollPoller::remove`. -/
def pollerRemove {C : Type} (p : Poller C) (fd : Nat) : Poller C :=
  ⟨mapErase fd p.handlers⟩

/-- Which `epoll_ctl` operation a registration performed. -/
inductive EpollOp where
  | ADD
  | MOD
  deriving Repr, DecidableEq

/-- `EventLoop::register_read`: modify when the fd is known, add
otherwise; interest is read, edge-triggered. -/
def register_read {C : Type} (p : Poller C) (fd : Nat) (coro : C) :
    EpollOp × Poller C :=
  if pollerHas p fd then
    (.MOD, pollerModify p fd (EPOLLIN ||| EPOLLET) coro)
  else
    (.ADD, pollerAdd p fd (EPOLLIN ||| EPOLLET) coro)

/-- `EventLoop::register_write`. -/
def register_write {C : Type} (p : Poller C) (fd : Nat) (coro : C) :
    EpollOp × Poller C :=
  if pollerHas p fd then
    (.MOD, pollerModify p fd (EPOLLOUT ||| EPOLLET) coro)
  else
    (.ADD, pollerAdd p fd (EPOLLOUT ||| EPOLLET) coro)

/-- The ready-collection loop of `EpollPoller::poll`: for each reported
`(fd, revents)` pair, look the fd up and push its continuation when the
reported mask intersects the registered interest or carries
`EPOLLERR | EPOLLHUP`.  We keep the fd beside each pushed continuation;
the C++ return value is the second projection of this list.  One
`epoll_wait` call reports each registered fd at most once, with all its
readiness bits merged into a single mask. -/
def poll_collect {C : Type} (handlers : List (Nat × EventHandler C))
    (evs : List (Nat × Nat)) : List (Nat × C) :=
  evs.filterMap fun ev =>
    match mapLookup ev.1 handlers with
    | none => none
    | some h =>
      if ev.2 &&& h.events ≠ 0 ∨ ev.2 &&& (EPOLLERR ||| EPOLLHUP) ≠ 0
      then some (ev.1, h.coro) else none

/-- The list `EpollPoller::poll` actually returns. -/
def poll_ready {C : Type} (handlers : List (Nat × EventHandler C))
    (evs : List (Nat × Nat)) : List C :=
  (poll_collect handlers evs).map (·.2)

/-- A looked-up key is among the keys. -/
theorem mapLookup_mem_keys {β : Type} (k : Nat) (w : β) :
    ∀ l : List (Nat × β), mapLookup k l = some w → k ∈ l.map (·.1) := by
  intro l
  induction l with
  | nil => intro h; cases h
  | cons p rest ih =>
    intro h
    unfold mapLookup at h
    by_cases hk : k = p.1
    · simp [hk]
    · rw [if_neg hk] at h
      exact List.mem_cons.mpr (Or.inr (ih h))

/-- Writing an already-present key leaves the key sequence unchanged:
re-registration replaces the handler, it does not add a second entry. -/
theorem mapAssign_keys_of_lookup {β : Type} (k : Nat) (v w : β) :
    ∀ l : List (Nat × β),
      (l.map (·.1)).Pairwise (· < ·) → mapLookup k l = some w →
      (mapAssign k v l).map (·.1) = l.map (·.1) := by
  intro l
  induction l with
  | nil => intro _ h; cases h
  | cons p rest ih =>
    intro hs h
    obtain ⟨k', v'⟩ := p
    unfold mapLookup at h
    simp only [List.map_cons] at hs
    by_cases hk : k = k'
    · subst hk
      unfold mapAssign
      simp
    · rw [if_neg hk] at h
      have hmem : k ∈ rest.map (·.1) := mapLookup_mem_keys k w rest h
      have hlt : k' < k := (List.pairwise_cons.mp hs).1 k hmem
      have hnotlt : ¬ k < k' := Nat.not_lt.mpr (Nat.le_of_lt hlt)
      unfold mapAssign
      rw [if_neg hnotlt, if_neg hk]
      simp only [List.map_cons]
      rw [ih (List.pairwise_cons.mp hs).2 h]

/-- Looking up the key just written finds the new handler. -/
theorem mapAssign_lookup_self {β : Type} (k : Nat) (v : β) :
    ∀ l : List (Nat × β), mapLookup k (mapAssign k v l) = some v := by
  intro l
  induction l with
  | nil => simp [mapAssign, mapLookup]
  | cons p rest ih =>
    obtain ⟨k', v'⟩ := p
    unfold mapAssign
    by_cases h1 : k < k'
    · simp [h1, mapLookup]
    · rw [if_neg h1]
      by_cases h2 : k = k'
      · simp [h2, mapLookup]
      · rw [if_neg h2]
        unfold mapLookup
        rw [if_neg h2]
        exact ih

/-- The keys after an insert-or-assign are among the written key and the
old keys. -/
theorem mapAssign_keys_subset {β : Type} (k : Nat) (v : β) :
    ∀ l : List (Nat × β),
      (mapAssign k v l).map (·.1) ⊆ k :: l.map (·.1) := by
  intro l
  induction l with
  | nil => simp [mapAssign]
  | cons q qrest ihq =>
    obtain ⟨kq, vq⟩ := q
    unfold mapAssign
    by_cases hq1 : k < kq
    · rw [if_pos hq1]
      intro x hx
      simpa using hx
    · rw [if_neg hq1]
      by_cases hq2 : k = kq
      · rw [if_pos hq2]
        intro x hx
        simp only [List.map_cons, List.mem_cons] at hx ⊢
        rcases hx with hx | hx
        · exact Or.inl hx
        · exact Or.inr (Or.inr hx)
      · rw [if_neg hq2]
        intro x hx
        simp only [List.map_cons, List.mem_cons] at hx ⊢
        rcases hx with hx | hx
        · exact Or.inr (Or.inl hx)
        · rcases List.mem_cons.mp (ihq hx) with hx' | hx'
          · exact Or.inl hx'
          · exact Or.inr (Or.inr hx')

/-- Key orderedness (the `std::map` representation invariant) is
preserved by insert-or-assign. -/
theorem mapAssign_keys_sorted {β : Type} (k : Nat) (v : β) :
    ∀ l : List (Nat × β),
      (l.map (·.1)).Pairwise (· < ·) →
      ((mapAssign k v l).map (·.1)).Pairwise (· < ·) := by
  intro l
  induction l with
  | nil => intro _; simp [mapAssign]
  | cons p rest ih =>
    intro hs
    obtain ⟨k', v'⟩ := p
    simp only [List.map_cons] at hs
    have hhead := (List.pairwise_cons.mp hs).1
    have htail := (List.pairwise_cons.mp hs).2
    unfold mapAssign
    by_cases h1 : k < k'
    · rw [if_pos h1]
      simp only [List.map_cons]
      refine List.pairwise_cons.mpr ⟨?_, hs⟩
      intro b hb
      rcases List.mem_cons.mp hb with hb | hb
      · exact hb ▸ h1
      · exact Nat.lt_trans h1 (hhead b hb)
    · rw [if_neg h1]
      by_cases h2 : k = k'
      · rw [if_pos h2]
        subst h2
        simp only [List.map_cons]
        exact List.pairwise_cons.mpr ⟨hhead, htail⟩
      · rw [if_neg h2]
        simp only [List.map_cons]
        refine List.pairwise_cons.mpr ⟨?_, ih htail⟩
        intro b hb
        have hk'k : k' < k :=
          Nat.lt_of_le_of_ne (Nat.not_lt.mp h1) (fun h => h2 h.symm)
        rcases List.mem_cons.mp (mapAssign_keys_subset k v rest hb)
            with hb' | hb'
        · exact hb' ▸ hk'k
        · exact hhead b hb'

/-- The head equation of `poll_collect`. -/
theorem poll_collect_cons {C : Type}
    (handlers : List (Nat × EventHandler C)) (ev : Nat × Nat)
    (rest : List (Nat × Nat)) :
    poll_collect handlers (ev :: rest) =
      match mapLookup ev.1 handlers with
      | none => poll_collect handlers rest
      | some h =>
        if ev.2 &&& h.events ≠ 0 ∨ ev.2 &&& (EPOLLERR ||| EPOLLHUP) ≠ 0
        then (ev.1, h.coro) :: poll_collect handlers rest
        else poll_collect handlers rest := by
  unfold poll_collect
  rw [List.filterMap_cons]
  cases mapLookup ev.1 handlers with
  | none => rfl
  | some h =>
    by_cases hc : ev.2 &&& h.events ≠ 0 ∨
        ev.2 &&& (EPOLLERR ||| EPOLLHUP) ≠ 0
    · simp only [if_pos hc]
    · simp only [if_neg hc]

/-- The fds tagged onto the collected continuations form a sublist of
the fds reported by the poll. -/
theorem poll_collect_fds_sublist {C : Type}
    (handlers : List (Nat × EventHandler C)) :
    ∀ evs : List (Nat × Nat),
      List.Sublist ((poll_collect handlers evs).map (·.1))
        (evs.map (·.1)) := by
  intro evs
  induction evs with
  | nil => simp [poll_collect]
  | cons ev rest ih =>
    rw [poll_collect_cons]
    cases mapLookup ev.1 handlers with
    | none =>
      simp only [List.map_cons]
      exact List.Sublist.cons ev.1 ih
    | some h =>
      by_cases hc : ev.2 &&& h.events ≠ 0 ∨
          ev.2 &&& (EPOLLERR ||| EPOLLHUP) ≠ 0
      · simp only [if_pos hc, List.map_cons]
        exact List.Sublist.cons₂ ev.1 ih
      · simp only [if_neg hc, List.map_cons]
        exact List.Sublist.cons ev.1 ih

/-- C5: (1) at most one pending continuation per descriptor — on any
poller state whose key sequence satisfies the `std::map` invariant, the
registered fds are pairwise distinct, and registration preserves the
invariant; (2) registering interest for an fd that is already registered
performs `EPOLL_CTL_MOD`, not `EPOLL_CTL_ADD`, leaving the registered fd
sequence unchanged and replacing the stored continuation with the new
one; (3) in a single poll cycle whose reported fds are pairwise distinct
(as one `epoll_wait` reports each fd once, readiness bits merged), each
descriptor's continuation is enqueued at most once: the collected fds
are pairwise distinct. -/
theorem C5_per_fd_single_continuation_replace_and_poll_dedup
    {C : Type} (p : Poller C) (fd : Nat) (c : C)
    (evs : List (Nat × Nat))
    (hs : (p.handlers.map (·.1)).Pairwise (· < ·))
    (hhas : pollerHas p fd = true)
    (hnodup : (evs.map (·.1)).Nodup) :
    (p.handlers.map (·.1)).Nodup ∧
    (register_read p fd c).1 = .MOD ∧
    ((register_read p fd c).2.handlers.map (·.1)) =
      p.handlers.map (·.1) ∧
    (((register_read p fd c).2.handlers.map (·.1))).Pairwise (· < ·) ∧
    mapLookup fd (register_read p fd c).2.handlers =
      some ⟨c, EPOLLIN ||| EPOLLET⟩ ∧
    ((poll_collect p.handlers evs).map (·.1)).Nodup := by
  obtain ⟨w, hw⟩ := Option.isSome_iff_exists.mp hhas
  have hreg : register_read p fd c =
      (.MOD, pollerModify p fd (EPOLLIN ||| EPOLLET) c) := by
    simp [register_read, hhas]
  refine ⟨?_, ?_, ?_, ?_, ?_, ?_⟩
  · exact List.Pairwise.imp Nat.ne_of_lt hs
  · rw [hreg]
  · rw [hreg]
    exact mapAssign_keys_of_lookup fd ⟨c, EPOLLIN ||| EPOLLET⟩ w
      p.handlers hs hw
  · rw [hreg]
    exact mapAssign_keys_sorted fd ⟨c, EPOLLIN ||| EPOLLET⟩ p.handlers hs
  · rw [hreg]
    exact mapAssign_lookup_self fd ⟨c, EPOLLIN ||| EPOLLET⟩ p.handlers
  · exact List.Nodup.sublist (poll_collect_fds_sublist p.handlers evs)
      hnodup

/-- Witness for C5: one registered descriptor (fd 3, continuation 42);
re-registration with continuation 99 performs MOD and replaces; a poll
cycle reporting fd 3 once, with read and hang-up merged into one mask,
enqueues continuation 42 exactly once. -/
theorem C5_per_fd_single_continuation_replace_and_poll_dedup_witness :
    (register_read
      (⟨[(3, ⟨42, EPOLLIN ||| EPOLLET⟩)]⟩ : Poller Nat) 3 99).1 =
      .MOD ∧
    mapLookup 3 (register_read
      (⟨[(3, ⟨42, EPOLLIN ||| EPOLLET⟩)]⟩ : Poller Nat) 3 99).2.handlers =
      some ⟨99, EPOLLIN ||| EPOLLET⟩ ∧
    poll_ready [(3, (⟨42, EPOLLIN ||| EPOLLET⟩ : EventHandler Nat))]
      [(3, EPOLLIN ||| EPOLLHUP)] = [42] := by
  have h := C5_per_fd_single_continuation_replace_and_poll_dedup
    (⟨[(3, ⟨42, EPOLLIN ||| EPOLLET⟩)]⟩ : Poller Nat) 3 99
    [(3, EPOLLIN ||| EPOLLHUP)] (by simp) (by rfl) (by simp)
  refine ⟨h.2.1, ?_, ?_⟩
  · have := h.2.2.2.2.1
    simpa using this
  · rfl

/-! ## Generator promise (core/generator.hpp)

`Generator<T>::promise_type` keeps `value_ptr_` (null, into the
coroutine frame, or at the promise-owned `stored_value_` slot) and the
union slot itself.  We model the pointer, whether the slot currently
holds a constructed object, and running totals of slot constructions and
destructions.  `std::destroy_at` on a dead slot and `std::construct_at`
over a live one are undefined behavior, so the operations return
`Option`; `none` never arises from the code's paths (proved below). -/

inductive GPtr where
  | null
  | frame (addr : Nat)
  | slot
  deriving Repr, DecidableEq

structure GenPromise where
  value_ptr : GPtr
  slotLive : Bool
  constructed : Nat
  destroyed : Nat
  deriving Repr, DecidableEq

/-- `promise_type()`: `value_ptr_(nullptr)`, slot not constructed. -/
def GenPromise.init : GenPromise := ⟨.null, false, 0, 0⟩

/-- `std::destroy_at(&stored_value_)`: undefined unless the slot holds a
live object. -/
def destroySlot (p : GenPromise) : Option GenPromise :=
  if p.slotLive then
    some { p with slotLive := false, destroyed := p.destroyed + 1 }
  else none

/-- `yield_value(const T&)` (left-value yield): destroy the slot content
first when the previous pointer pointed at the slot, then store the
address of the frame-resident variable. -/
def yield_lvalue (addr : Nat) (p : GenPromise) : Option GenPromise :=
  match (if p.value_ptr = .slot then destroySlot p else some p) with
  | none => none
  | some q => some { q with value_ptr := .frame addr }

/-- `yield_value(T&&)` (right-value yield): destroy the previous slot
content when the pointer pointed at the slot, then move-construct the
temporary into the slot (undefined if the slot were still live) and
point at the slot. -/
def yield_rvalue (p : GenPromise) : Option GenPromise :=
  match (if p.value_ptr = .slot then destroySlot p else some p) with
  | none => none
  | some q =>
    if q.slotLive then none
    else some { q with slotLive := true, constructed := q.constructed + 1,
                       value_ptr := .slot }

/-- `~promise_type()`: destroy the slot content exactly when
`value_ptr_` points at the slot. -/
def promise_destroy (p : GenPromise) : Option GenPromise :=
  if p.value_ptr = .slot then destroySlot p else some p

/-- A step of the generator body: yielding a named frame variable or a
temporary. -/
inductive GenEvent where
  | yieldL (addr : Nat)
  | yieldR

def genStep (p : GenPromise) : GenEvent → Option GenPromise
  | .yieldL addr => yield_lvalue addr p
  | .yieldR => yield_rvalue p

/-- Run a sequence of yields from a fresh promise. -/
def genRun (evs : List GenEvent) : Option GenPromise :=
  evs.foldl (fun acc ev => acc.bind (fun p => genStep p ev))
    (some GenPromise.init)

/-- The slot is live exactly when the pointer points at it, and the
running totals balance up to the live object. -/
def GenInv (p : GenPromise) : Prop :=
  (p.slotLive = true ↔ p.value_ptr = .slot) ∧
  p.constructed = p.destroyed + (if p.slotLive then 1 else 0)

theorem genStep_preserves {p : GenPromise} (hp : GenInv p)
    (ev : GenEvent) : ∃ q, genStep p ev = some q ∧ GenInv q := by
  obtain ⟨hlive, hcount⟩ := hp
  cases ev with
  | yieldL addr =>
    by_cases hs : p.value_ptr = GPtr.slot
    · have hl : p.slotLive = true := hlive.mpr hs
      refine ⟨⟨.frame addr, false, p.constructed, p.destroyed + 1⟩,
        ?_, ?_⟩
      · simp [genStep, yield_lvalue, hs, destroySlot, hl]
      · constructor
        · simp
        · simpa [hl] using hcount
    · have hl : p.slotLive = false := by
        cases h : p.slotLive with
        | true => exact absurd (hlive.mp h) hs
        | false => rfl
      refine ⟨⟨.frame addr, p.slotLive, p.constructed, p.destroyed⟩,
        ?_, ?_⟩
      · simp [genStep, yield_lvalue, hs]
      · constructor
        · simp [hl]
        · simpa using hcount
  | yieldR =>
    by_cases hs : p.value_ptr = GPtr.slot
    · have hl : p.slotLive = true := hlive.mpr hs
      have hc : p.constructed = p.destroyed + 1 := by
        rw [hl] at hcount
        simpa using hcount
      refine ⟨⟨.slot, true, p.constructed + 1, p.destroyed + 1⟩, ?_, ?_⟩
      · simp [genStep, yield_rvalue, hs, destroySlot, hl]
      · constructor
        · simp
        · show p.constructed + 1 = p.destroyed + 1 + 1
          omega
    · have hl : p.slotLive = false := by
        cases h : p.slotLive with
        | true => exact absurd (hlive.mp h) hs
        | false => rfl
      have hc : p.constructed = p.destroyed := by
        rw [hl] at hcount
        simpa using hcount
      refine ⟨⟨.slot, true, p.constructed + 1, p.destroyed⟩, ?_, ?_⟩
      · simp [genStep, yield_rvalue, hs, hl]
      · constructor
        · simp
        · show p.constructed + 1 = p.destroyed + 1
          omega

theorem genRun_inv (evs : List GenEvent) :
    ∃ q, genRun evs = some q ∧ GenInv q := by
  suffices h : ∀ (p : GenPromise), GenInv p →
      ∃ q, evs.foldl (fun acc ev => acc.bind (fun r => genStep r ev))
        (some p) = some q ∧ GenInv q by
    exact h GenPromise.init ⟨by simp [GenPromise.init], by
      simp [GenPromise.init]⟩
  induction evs with
  | nil => intro p hp; exact ⟨p, rfl, hp⟩
  | cons ev rest ih =>
    intro p hp
    obtain ⟨q, hq, hinv⟩ := genStep_preserves hp ev
    obtain ⟨r, hr, hrinv⟩ := ih q hinv
    refine ⟨r, ?_, hrinv⟩
    simpa [hq] using hr

/-- C8: after any mixed sequence of left-value and right-value yields,
(1) none of the code's slot operations hits undefined behavior — every
`destroy_at` happens on a live slot and every `construct_at` on a dead
one (`genRun` and the final promise destruction both succeed);
(2) between a yield and the next resumption exactly one of the frame
pointer and the slot pointer is live: the slot holds a live object
exactly when `value_ptr_` points at it;
(3) a yield destroys the previous slot content exactly when the previous
pointer pointed at the slot, before installing the new value;
(4) promise destruction destroys the slot content exactly when the
pointer points at the slot, after which constructions and destructions
balance — no value destroyed twice, none leaked. -/
theorem C8_generator_slot_discipline (evs : List GenEvent)
    (addr : Nat) :
    ∃ q r, genRun evs = some q ∧
      (q.slotLive = true ↔ q.value_ptr = .slot) ∧
      ((yield_lvalue addr q).map (·.destroyed) =
        some (q.destroyed + (if q.value_ptr = .slot then 1 else 0))) ∧
      ((yield_rvalue q).map (·.destroyed) =
        some (q.destroyed + (if q.value_ptr = .slot then 1 else 0))) ∧
      ((yield_rvalue q).map (·.constructed) =
        some (q.constructed + 1)) ∧
      promise_destroy q = some r ∧
      r.destroyed = q.destroyed +
        (if q.value_ptr = .slot then 1 else 0) ∧
      r.constructed = r.destroyed ∧
      r.slotLive = false := by
  obtain ⟨q, hq, hlive, hcount⟩ := genRun_inv evs
  by_cases hs : q.value_ptr = GPtr.slot
  · have hl : q.slotLive = true := hlive.mpr hs
    have hc : q.constructed = q.destroyed + 1 := by
      rw [hl] at hcount
      simpa using hcount
    refine ⟨q, ⟨q.value_ptr, false, q.constructed, q.destroyed + 1⟩,
      hq, hlive, ?_, ?_, ?_, ?_, ?_, ?_, ?_⟩
    · simp [yield_lvalue, hs, destroySlot, hl]
    · simp [yield_rvalue, hs, destroySlot, hl]
    · simp [yield_rvalue, hs, destroySlot, hl]
    · simp [promise_destroy, hs, destroySlot, hl]
    · simp [hs]
    · simpa using hc
    · rfl
  · have hl : q.slotLive = false := by
      cases h : q.slotLive with
      | true => exact absurd (hlive.mp h) hs
      | false => rfl
    have hc : q.constructed = q.destroyed := by
      rw [hl] at hcount
      simpa using hcount
    refine ⟨q, q, hq, hlive, ?_, ?_, ?_, ?_, ?_, ?_, hl⟩
    · simp [yield_lvalue, hs]
    · simp [yield_rvalue, hs, hl]
    · simp [yield_rvalue, hs, hl]
    · simp [promise_destroy, hs]
    · simp [hs]
    · exact hc

/-! ## AsyncSocket::write (async_socket.hpp)

The write loop: while fewer than `len` bytes are written, call
`::write` on the remaining range; on `EAGAIN`/`EWOULDBLOCK` suspend for
write-readiness and retry; on another failure raise; on success advance
the cursor by the bytes written.  The kernel's responses are an oracle
list, one entry per attempted syscall; a successful write transfers at
most the requested byte count. -/

inductive WriteRes where
  | wouldBlock
  | fail
  | wrote (n : Nat)

/-- The write loop of `AsyncSocket::write(data, len)`, from cursor
`total`.  `none` means the oracle ran out before the loop finished (the
coroutine is still suspended); `some (.error ())` a raised write error;
`some (.ok n)` completion returning `n`. -/
def async_write (len : Nat) : List WriteRes → Nat →
    Option (Except Unit Nat)
  | oracle, total =>
    if len ≤ total then some (.ok total)
    else
      match oracle with
      | [] => none
      | .wouldBlock :: rest => async_write len rest total
      | .fail :: _ => some (.error ())
      | .wrote n :: rest =>
        async_write len rest (total + min n (len - total))

/-- The loop keeps the cursor within `len` and, whenever it completes
without raising, returns exactly `len`. -/
theorem async_write_complete_eq_len (len : Nat) :
    ∀ (oracle : List WriteRes) (total r : Nat), total ≤ len →
      async_write len oracle total = some (.ok r) → r = len := by
  intro oracle
  induction oracle with
  | nil =>
    intro total r hle h
    unfold async_write at h
    by_cases hfin : len ≤ total
    · rw [if_pos hfin] at h
      cases h
      exact Nat.le_antisymm hle hfin
    · rw [if_neg hfin] at h
      cases h
  | cons w rest ih =>
    intro total r hle h
    unfold async_write at h
    by_cases hfin : len ≤ total
    · rw [if_pos hfin] at h
      cases h
      exact Nat.le_antisymm hle hfin
    · rw [if_neg hfin] at h
      cases w with
      | wouldBlock => exact ih total r hle h
      | fail => cases h
      | wrote n =>
        refine ih (total + min n (len - total)) r ?_ h
        have : min n (len - total) ≤ len - total := Nat.min_le_right _ _
        omega

/-- C9: whenever `AsyncSocket::write(data, len)` completes without
raising an error — for any kernel behavior, i.e. any oracle of
would-block suspensions and partial writes — the byte count it returns
equals `len`: the loop only exits normally once all bytes are written. -/
theorem C9_write_returns_len_on_success
    (len : Nat) (oracle : List WriteRes) (r : Nat)
    (h : async_write len oracle 0 = some (.ok r)) : r = len :=
  async_write_complete_eq_len len oracle 0 r (Nat.zero_le len) h

/-- Witness for C9: writing 5 bytes with a partial write of 3, a
would-block suspension, then a write of the remaining 2, completes
returning 5. -/
theorem C9_write_returns_len_on_success_witness :
    async_write 5 [.wrote 3, .wouldBlock, .wrote 2] 0 =
      some (.ok 5) ∧ (5 : Nat) = 5 := by
  have heval : async_write 5 [.wrote 3, .wouldBlock, .wrote 2] 0 =
      some (.ok 5) := by rfl
  exact ⟨heval, C9_write_returns_len_on_success 5
    [.wrote 3, .wouldBlock, .wrote 2] 5 heval⟩

end ZLCoro
